import Mathlib

/-!
Shallow embedding of the eBPF assembler core (asm/instruction.go): the
instruction data model, the binary codec for single-slot and double-wide
instructions, map-pointer/map-offset rewriting, the symbol and slot-offset
tables, and the program-level Marshal linking pass.

Machine integers are modelled as Nat/Int with explicit two's-complement
reduction at the widths the Go code uses (uint8/int16/int32/int64).
Byte streams are lists of byte values; io.Reader/io.Writer become explicit
list passing, and fallible operations return Except.
-/

namespace asm

/-! Two's-complement conversions between Go integer widths. -/

/-- Bits of a Go value reduced to uint16 (a Nat below 2^16). -/
def uint16 (i : Int) : Nat := (i % 65536).toNat

/-- Bits of a Go value reduced to uint32 (a Nat below 2^32). -/
def uint32 (i : Int) : Nat := (i % 4294967296).toNat

/-- Bits of a Go value reduced to uint64 (a Nat below 2^64). -/
def uint64 (i : Int) : Nat := (i % 18446744073709551616).toNat

/-- Signed reinterpretation of low 16 bits: Go int16 conversion. -/
def int16 (n : Nat) : Int :=
  if n % 65536 < 32768 then ((n % 65536 : Nat) : Int)
  else ((n % 65536 : Nat) : Int) - 65536

/-- Signed reinterpretation of low 32 bits: Go int32 conversion. -/
def int32 (n : Nat) : Int :=
  if n % 4294967296 < 2147483648 then ((n % 4294967296 : Nat) : Int)
  else ((n % 4294967296 : Nat) : Int) - 4294967296

/-- Signed reinterpretation of low 64 bits: Go int64 conversion. -/
def int64 (n : Nat) : Int :=
  if n % 18446744073709551616 < 9223372036854775808
  then ((n % 18446744073709551616 : Nat) : Int)
  else ((n % 18446744073709551616 : Nat) : Int) - 18446744073709551616

/-! Byte-order descriptors (encoding/binary.ByteOrder) and the byte-level
field codec used by binary.Read/binary.Write on the bpfInstruction struct. -/

inductive ByteOrder where
  | littleEndian
  | bigEndian
deriving DecidableEq

/-- Serialize a uint16 value as two bytes under the given byte order. -/
def putUint16 (bo : ByteOrder) (v : Nat) : List Nat :=
  match bo with
  | .littleEndian => [v % 256, v / 256 % 256]
  | .bigEndian => [v / 256 % 256, v % 256]

/-- Serialize a uint32 value as four bytes under the given byte order. -/
def putUint32 (bo : ByteOrder) (v : Nat) : List Nat :=
  match bo with
  | .littleEndian => [v % 256, v / 256 % 256, v / 65536 % 256, v / 16777216 % 256]
  | .bigEndian => [v / 16777216 % 256, v / 65536 % 256, v / 256 % 256, v % 256]

/-- Combine two bytes into a uint16 value under the given byte order. -/
def getUint16 (bo : ByteOrder) (b0 b1 : Nat) : Nat :=
  match bo with
  | .littleEndian => b0 + b1 * 256
  | .bigEndian => b1 + b0 * 256

/-- Combine four bytes into a uint32 value under the given byte order. -/
def getUint32 (bo : ByteOrder) (b0 b1 b2 b3 : Nat) : Nat :=
  match bo with
  | .littleEndian => b0 + b1 * 256 + b2 * 65536 + b3 * 16777216
  | .bigEndian => b3 + b2 * 256 + b1 * 65536 + b0 * 16777216

/-! Error values. The Go code returns error values built with xerrors; each
distinct error site becomes one constructor. atInstruction models the
"instruction %d: %w" wrapping applied by Instructions.Marshal to codec
errors. -/

inductive Err where
  | eof
  | unexpectedEOF
  | missingSecondHalf
  | nonZeroFields
  | invalidOpCode
  | notDWordLoad
  | notMapLoad
  | notDirectMapLoad
  | emptySymbol
  | unreferencedSymbol (symbol : String)
  | duplicateSymbol (symbol : String)
  | missingSymbol (index : Nat) (symbol : String)
  | atInstruction (index : Nat) (err : Err)
deriving DecidableEq

/-- IsUnreferencedSymbol returns true if err was caused by an unreferenced
symbol (Go: type assertion to unreferencedSymbolError). -/
def IsUnreferencedSymbol : Err → Bool
  | .unreferencedSymbol _ => true
  | _ => false

/-! The opcode contract. opcode.go and register.go are not part of src/, so
the queries the codec and linker rely on are modelled from the spec's
description of the opaque opcode type and the reserved pseudo-registers. -/

/-- Modelled from the spec: the designated invalid/sentinel opcode value
(opcode.go is not in src/). Encoding fails on it. -/
def InvalidOpCode : Nat := 255

/-- Modelled from the spec: the double-wide load opcode (the 64-bit
immediate load, BPF LD or-ed with IMM and DWord; opcode.go is not in
src/). Double-wideness is determined solely by the opcode. -/
def LoadImmOpDWord : Nat := 24

/-- Modelled from the spec: the query for "is this a double-wide load"
on the opaque opcode type (opcode.go is not in src/). -/
def OpCode.isDWordLoad (op : Nat) : Bool := op == LoadImmOpDWord

/-- Modelled from the spec: the query returning the slot count (1 or 2)
of an instruction, 2 exactly for double-wide loads (opcode.go is not in
src/). -/
def OpCode.marshalledInstructions (op : Nat) : Nat :=
  if OpCode.isDWordLoad op then 2 else 1

/-- Modelled from the spec: the branch/jump instruction class value
(opcode.go is not in src/; the class lives in the low 3 bits of the
opcode byte). -/
def JumpClass : Nat := 5

/-- Modelled from the spec: the operation-class query on the opaque opcode
type (opcode.go is not in src/). -/
def OpCode.Class (op : Nat) : Nat := op % 8

/-- Modelled from the spec: the call operation value within the jump class
(opcode.go is not in src/). -/
def Call : Nat := 128

/-- Modelled from the spec: the sentinel returned by the jump-operation
query outside the jump class (opcode.go is not in src/). -/
def InvalidJumpOp : Nat := 255

/-- Modelled from the spec: the jump-operation query on the opaque opcode
type (opcode.go is not in src/; within the jump class the operation lives
in the high nibble of the opcode byte). -/
def OpCode.JumpOp (op : Nat) : Nat :=
  if OpCode.Class op = JumpClass then op % 256 / 16 * 16 else InvalidJumpOp

/-- Modelled from the spec: the reserved pseudo-register denoting "load a
map handle" (register.go is not in src/). -/
def PseudoMapFD : Nat := 1

/-- Modelled from the spec: the reserved pseudo-register denoting "load a
value at an offset within a referenced map" (register.go is not in
src/). -/
def PseudoMapValue : Nat := 2

/-- Modelled from the spec: the reserved pseudo-register marking bpf-to-bpf
calls (register.go is not in src/). -/
def PseudoCall : Nat := 1

/-! The wire-level instruction slot (struct bpfInstruction) and the nibble
packing of the register byte. -/

structure bpfInstruction where
  OpCode : Nat
  Registers : Nat
  Offset : Int
  Constant : Int
deriving DecidableEq

/-- newBPFRegisters packs src into the high nibble and dst into the low
nibble of one byte (Go: bpfRegisters((src << 4) or-ed with (dst & 0xF)) on
uint8, written arithmetically on the disjoint nibbles). -/
def newBPFRegisters (dst src : Nat) : Nat := src % 16 * 16 + dst % 16

/-- Dst extracts the low nibble of the register byte (Go: r & 0xF). -/
def bpfRegisters.Dst (r : Nat) : Nat := r % 16

/-- Src extracts the high nibble of the register byte (Go: r >> 4 on
uint8). -/
def bpfRegisters.Src (r : Nat) : Nat := r % 256 / 16

/-- One binary.Write of a bpfInstruction: opcode byte, register byte, then
the int16 offset and int32 constant in the given byte order. -/
def writeSlot (bo : ByteOrder) (bi : bpfInstruction) : List Nat :=
  bi.OpCode % 256 :: bi.Registers % 256 ::
    (putUint16 bo (uint16 bi.Offset) ++ putUint32 bo (uint32 bi.Constant))

/-- One binary.Read of a bpfInstruction from the stream: consumes 8 bytes
or fails. Reading nothing is io.EOF; reading a partial slot is
io.ErrUnexpectedEOF. -/
def readSlot (bo : ByteOrder) (s : List Nat) : Except Err (bpfInstruction × List Nat) :=
  match s with
  | b0 :: b1 :: b2 :: b3 :: b4 :: b5 :: b6 :: b7 :: rest =>
      .ok (⟨b0, b1, int16 (getUint16 bo b2 b3), int32 (getUint32 bo b4 b5 b6 b7)⟩, rest)
  | [] => .error .eof
  | _ => .error .unexpectedEOF

/-! The Instruction data model and the single-instruction codec. -/

/-- InstructionSize is the size of a BPF instruction in bytes. -/
def InstructionSize : Nat := 8

/-- Instruction is a single eBPF instruction. -/
structure Instruction where
  OpCode : Nat
  Dst : Nat
  Src : Nat
  Offset : Int
  Constant : Int
  Reference : String
  Symbol : String
deriving DecidableEq

/-- Unmarshal decodes a BPF instruction, reporting the consumed byte
count. A double-wide load reads a second slot, whose opcode, offset, and
register byte must be zero padding, and combines the two 32-bit constant
halves, low half first. -/
def Instruction.Unmarshal (s : List Nat) (bo : ByteOrder) : Except Err (Instruction × Nat) :=
  match readSlot bo s with
  | .error e => .error e
  | .ok (bi, rest) =>
    let ins : Instruction :=
      { OpCode := bi.OpCode, Dst := bpfRegisters.Dst bi.Registers,
        Src := bpfRegisters.Src bi.Registers, Offset := bi.Offset,
        Constant := bi.Constant, Reference := "", Symbol := "" }
    if !OpCode.isDWordLoad bi.OpCode then
      .ok (ins, InstructionSize)
    else
      match readSlot bo rest with
      | .error _ => .error .missingSecondHalf
      | .ok (bi2, _) =>
        if bi2.OpCode != 0 || bi2.Offset != 0 || bi2.Registers != 0 then
          .error .nonZeroFields
        else
          .ok ({ ins with
                 Constant := int64 (uint32 bi2.Constant * 4294967296 + uint32 bi.Constant) },
               2 * InstructionSize)

/-- Marshal encodes a BPF instruction, reporting the written byte count.
The first slot of a double-wide load carries the low 32 bits of the
constant; the second slot is zero except for the high 32 bits. -/
def Instruction.Marshal (ins : Instruction) (bo : ByteOrder) : Except Err (List Nat × Nat) :=
  if ins.OpCode = InvalidOpCode then .error .invalidOpCode
  else
    let isDW := OpCode.isDWordLoad ins.OpCode
    -- Go: cons := int32(ins.Constant); on the double-wide path the source
    -- spells it int32(uint32(ins.Constant)), the same low 32 bits.
    let cons : Int := int32 (uint32 ins.Constant)
    let bpfi : bpfInstruction := ⟨ins.OpCode, newBPFRegisters ins.Dst ins.Src, ins.Offset, cons⟩
    if !isDW then
      .ok (writeSlot bo bpfi, InstructionSize)
    else
      -- Go: bpfInstruction{Constant: int32(ins.Constant >> 32)}, the
      -- arithmetic shift selecting the high 32 bits.
      let bpfi2 : bpfInstruction := ⟨0, 0, 0, int32 (uint64 ins.Constant / 4294967296)⟩
      .ok (writeSlot bo bpfi ++ writeSlot bo bpfi2, 2 * InstructionSize)

/-- RewriteMapPtr changes an instruction to use a new map fd, keeping the
high 32 bits (the direct-load offset) of the packed constant (Go:
uint64(ins.Constant) & (math.MaxUint32 << 32), or-ed with
uint64(uint32(fd))). -/
def Instruction.RewriteMapPtr (ins : Instruction) (fd : Int) : Except Err Instruction :=
  if !OpCode.isDWordLoad ins.OpCode then .error .notDWordLoad
  else if ins.Src ≠ PseudoMapFD ∧ ins.Src ≠ PseudoMapValue then .error .notMapLoad
  else
    let offset := uint64 ins.Constant / 4294967296 * 4294967296
    let rawFd := uint32 fd
    .ok { ins with Constant := int64 (offset + rawFd) }

/-- mapPtr extracts the handle: the low 32 bits of the packed constant. -/
def Instruction.mapPtr (ins : Instruction) : Nat := uint64 ins.Constant % 4294967296

/-- RewriteMapOffset changes the offset of a direct load from a map,
keeping the low 32 bits (the handle) of the packed constant (Go:
uint64(offset) << 32, or-ed with uint64(ins.Constant) & math.MaxUint32).
The offset argument models a Go uint32. -/
def Instruction.RewriteMapOffset (ins : Instruction) (offset : Nat) : Except Err Instruction :=
  if !OpCode.isDWordLoad ins.OpCode then .error .notDWordLoad
  else if ins.Src ≠ PseudoMapValue then .error .notDirectMapLoad
  else
    let fd := uint64 ins.Constant % 4294967296
    .ok { ins with Constant := int64 (offset % 4294967296 * 4294967296 + fd) }

/-- mapOffset extracts the direct-load offset: the high 32 bits of the
packed constant. -/
def Instruction.mapOffset (ins : Instruction) : Nat := uint64 ins.Constant / 4294967296

/-! The program level: an eBPF program is an ordered instruction list. -/

abbrev Instructions := List Instruction

/-- Loop body of Instructions.RewriteMapPtr: walks the list, rewriting
every instruction whose Reference matches, and reports whether any
matched. -/
def rewriteMapPtrGo (symbol : String) (fd : Int) :
    List Instruction → Except Err (List Instruction × Bool)
  | [] => .ok ([], false)
  | ins :: rest =>
    if ins.Reference ≠ symbol then
      match rewriteMapPtrGo symbol fd rest with
      | .error e => .error e
      | .ok (rest2, found) => .ok (ins :: rest2, found)
    else
      match Instruction.RewriteMapPtr ins fd with
      | .error e => .error e
      | .ok ins2 =>
        match rewriteMapPtrGo symbol fd rest with
        | .error e => .error e
        | .ok (rest2, _) => .ok (ins2 :: rest2, true)

/-- RewriteMapPtr rewrites all loads of a specific map pointer to a new
fd; an empty symbol is rejected up front, and a symbol referenced by zero
instructions yields the unreferenced-symbol error. -/
def Instructions.RewriteMapPtr (insns : List Instruction) (symbol : String) (fd : Int) :
    Except Err (List Instruction) :=
  if symbol = "" then .error .emptySymbol
  else
    match rewriteMapPtrGo symbol fd insns with
    | .error e => .error e
    | .ok (insns2, found) =>
      if found then .ok insns2 else .error (.unreferencedSymbol symbol)

/-- Loop of Instructions.SymbolOffsets: i is the logical index of the next
instruction, offsets the table built so far. -/
def symbolOffsetsGo : List Instruction → Nat → List (String × Nat) →
    Except Err (List (String × Nat))
  | [], _, offsets => .ok offsets
  | ins :: rest, i, offsets =>
    if ins.Symbol = "" then symbolOffsetsGo rest (i + 1) offsets
    else if (offsets.lookup ins.Symbol).isSome then .error (.duplicateSymbol ins.Symbol)
    else symbolOffsetsGo rest (i + 1) ((ins.Symbol, i) :: offsets)

/-- SymbolOffsets returns the set of symbols and their logical offset in
the instructions, failing on a duplicate symbol. -/
def Instructions.SymbolOffsets (insns : List Instruction) : Except Err (List (String × Nat)) :=
  symbolOffsetsGo insns 0 []

/-- Loop of Instructions.marshalledOffsets: marshalledPos is the running
slot counter; a symbol is recorded against the counter value before its
instruction is counted. -/
def marshalledOffsetsGo : List Instruction → Nat → List (String × Nat) →
    Except Err (List (String × Nat))
  | [], _, symbols => .ok symbols
  | ins :: rest, marshalledPos, symbols =>
    let currentPos := marshalledPos
    let nextPos := marshalledPos + OpCode.marshalledInstructions ins.OpCode
    if ins.Symbol = "" then marshalledOffsetsGo rest nextPos symbols
    else if (symbols.lookup ins.Symbol).isSome then .error (.duplicateSymbol ins.Symbol)
    else marshalledOffsetsGo rest nextPos ((ins.Symbol, currentPos) :: symbols)

/-- marshalledOffsets maps each symbol to the cumulative slot count of the
instructions preceding its defining instruction, failing on a duplicate
symbol. -/
def Instructions.marshalledOffsets (insns : List Instruction) :
    Except Err (List (String × Nat)) :=
  marshalledOffsetsGo insns 0 []

/-- Patch step of Instructions.Marshal at logical index i with running
slot counter num: a call whose constant is the -1 sentinel, or otherwise a
jump-class instruction whose offset is the -1 sentinel, has its pending
field resolved to the referenced slot offset minus num minus 1. -/
def marshalPatch (absoluteOffsets : List (String × Nat)) (i num : Nat) (ins : Instruction) :
    Except Err Instruction :=
  if OpCode.JumpOp ins.OpCode = Call ∧ ins.Constant = -1 then
    match absoluteOffsets.lookup ins.Reference with
    | none => .error (.missingSymbol i ins.Reference)
    | some offset => .ok { ins with Constant := (offset : Int) - num - 1 }
  else if OpCode.Class ins.OpCode = JumpClass ∧ ins.Offset = -1 then
    match absoluteOffsets.lookup ins.Reference with
    | none => .error (.missingSymbol i ins.Reference)
    | some offset => .ok { ins with Offset := int16 (uint16 ((offset : Int) - num - 1)) }
  else .ok ins

/-- Loop of Instructions.Marshal: patches each instruction, encodes it,
and advances the slot counter by the reported byte count divided by the
slot size. -/
def marshalGo (absoluteOffsets : List (String × Nat)) (bo : ByteOrder) :
    List Instruction → Nat → Nat → Except Err (List Nat)
  | [], _, _ => .ok []
  | ins :: rest, i, num =>
    match marshalPatch absoluteOffsets i num ins with
    | .error e => .error e
    | .ok ins2 =>
      match Instruction.Marshal ins2 bo with
      | .error e => .error (.atInstruction i e)
      | .ok (bs, n) =>
        match marshalGo absoluteOffsets bo rest (i + 1) (num + n / InstructionSize) with
        | .error e => .error e
        | .ok bs2 => .ok (bs ++ bs2)

/-- Marshal encodes a BPF program into the kernel format: it computes the
slot-offset table, then patches and encodes each instruction in order. -/
def Instructions.Marshal (insns : List Instruction) (bo : ByteOrder) : Except Err (List Nat) :=
  match Instructions.marshalledOffsets insns with
  | .error e => .error e
  | .ok absoluteOffsets => marshalGo absoluteOffsets bo insns 0 0

/-! Vocabulary used only in theorem statements. -/

/-- Non-empty symbol names of a sequence, in order. -/
def symsOf (insns : List Instruction) : List String :=
  insns.filterMap (fun ins => if ins.Symbol = "" then none else some ins.Symbol)

/-- Cumulative slot count of a sequence: 1 per single-slot instruction,
2 per double-wide load. -/
def slotCount (insns : List Instruction) : Nat :=
  (insns.map (fun ins => OpCode.marshalledInstructions ins.OpCode)).sum

/-- An instruction whose sentinel-pending constant or offset refers to a
symbol absent from the slot-offset table, following the patch step's
precedence: the call case is examined first. -/
def pendingMissing (offs : List (String × Nat)) (ins : Instruction) : Prop :=
  offs.lookup ins.Reference = none ∧
    ((OpCode.JumpOp ins.OpCode = Call ∧ ins.Constant = -1) ∨
     (¬(OpCode.JumpOp ins.OpCode = Call ∧ ins.Constant = -1) ∧
       OpCode.Class ins.OpCode = JumpClass ∧ ins.Offset = -1))

instance (offs : List (String × Nat)) (ins : Instruction) :
    Decidable (pendingMissing offs ins) := by
  unfold pendingMissing
  infer_instance

/-! Arithmetic facts about the width conversions. -/

theorem uint16_lt (i : Int) : uint16 i < 65536 := by
  simp only [uint16]; omega

theorem uint32_lt (i : Int) : uint32 i < 4294967296 := by
  simp only [uint32]; omega

theorem uint64_lt (i : Int) : uint64 i < 18446744073709551616 := by
  simp only [uint64]; omega

theorem int16_uint16 (i : Int) (h1 : -32768 ≤ i) (h2 : i < 32768) : int16 (uint16 i) = i := by
  simp only [int16, uint16]; split <;> omega

theorem int32_uint32 (i : Int) (h1 : -2147483648 ≤ i) (h2 : i < 2147483648) :
    int32 (uint32 i) = i := by
  simp only [int32, uint32]; split <;> omega

theorem uint32_int32 (n : Nat) : uint32 (int32 n) = n % 4294967296 := by
  simp only [int32, uint32]; split <;> omega

theorem uint16_int16 (n : Nat) : uint16 (int16 n) = n % 65536 := by
  simp only [int16, uint16]; split <;> omega

theorem uint64_int64 (n : Nat) : uint64 (int64 n) = n % 18446744073709551616 := by
  simp only [int64, uint64]; split <;> omega

theorem int64_combine (c : Int)
    (h1 : -9223372036854775808 ≤ c) (h2 : c < 9223372036854775808) :
    int64 (uint64 c / 4294967296 * 4294967296 + uint32 c) = c := by
  simp only [int64, uint64, uint32]; split <;> omega

/-! The slot codec inverts itself. -/

theorem readSlot_writeSlot (bo : ByteOrder) (bi : bpfInstruction) (rest : List Nat) :
    readSlot bo (writeSlot bo bi ++ rest) =
      .ok (⟨bi.OpCode % 256, bi.Registers % 256, int16 (uint16 bi.Offset),
            int32 (uint32 bi.Constant)⟩, rest) := by
  have h16 : uint16 bi.Offset < 65536 := uint16_lt _
  have h32 : uint32 bi.Constant < 4294967296 := uint32_lt _
  have e1 : uint16 bi.Offset % 256 + uint16 bi.Offset / 256 % 256 * 256 = uint16 bi.Offset := by
    omega
  have e2 : uint32 bi.Constant % 256 + uint32 bi.Constant / 256 % 256 * 256 +
      uint32 bi.Constant / 65536 % 256 * 65536 +
      uint32 bi.Constant / 16777216 % 256 * 16777216 = uint32 bi.Constant := by
    omega
  cases bo <;>
    simp only [writeSlot, putUint16, putUint32, List.cons_append, List.append_assoc,
      List.nil_append, readSlot, getUint16, getUint32, e1, e2]

theorem readSlot_short (bo : ByteOrder) (s : List Nat) (h : s.length < 8) :
    ∃ e, readSlot bo s = .error e := by
  unfold readSlot
  split
  · simp at h
    omega
  · exact ⟨_, rfl⟩
  · exact ⟨_, rfl⟩

/-! The register byte round-trips on 4-bit register identifiers. -/

theorem newBPFRegisters_lt (d s : Nat) : newBPFRegisters d s < 256 := by
  simp only [newBPFRegisters]; omega

theorem Dst_newBPFRegisters (d s : Nat) (hd : d < 16) :
    bpfRegisters.Dst (newBPFRegisters d s) = d := by
  simp only [bpfRegisters.Dst, newBPFRegisters]; omega

theorem Src_newBPFRegisters (d s : Nat) (hs : s < 16) :
    bpfRegisters.Src (newBPFRegisters d s) = s := by
  simp only [bpfRegisters.Src, newBPFRegisters]; omega

/-! Facts about the linking pass used by the error-path claims. -/

theorem rewriteMapPtrGo_no_match (symbol : String) (fd : Int) :
    ∀ insns : List Instruction, (∀ ins ∈ insns, ins.Reference ≠ symbol) →
      rewriteMapPtrGo symbol fd insns = .ok (insns, false) := by
  intro insns
  induction insns with
  | nil => intro _; rfl
  | cons ins rest ih =>
    intro h
    have hne : ins.Reference ≠ symbol := h ins (List.mem_cons_self _ _)
    simp only [rewriteMapPtrGo, if_pos hne, ih (fun i hi => h i (List.mem_cons_of_mem _ hi))]

theorem marshalPatch_not_missing (offs : List (String × Nat)) (i num : Nat)
    (ins : Instruction) (h : ¬ pendingMissing offs ins) :
    ∃ ins2, marshalPatch offs i num ins = .ok ins2 ∧ ins2.OpCode = ins.OpCode := by
  rw [marshalPatch]
  by_cases h1 : OpCode.JumpOp ins.OpCode = Call ∧ ins.Constant = -1
  · rw [if_pos h1]
    cases hl : offs.lookup ins.Reference with
    | none => exact absurd ⟨hl, Or.inl h1⟩ h
    | some t => exact ⟨_, rfl, rfl⟩
  · rw [if_neg h1]
    by_cases h2 : OpCode.Class ins.OpCode = JumpClass ∧ ins.Offset = -1
    · rw [if_pos h2]
      cases hl : offs.lookup ins.Reference with
      | none => exact absurd ⟨hl, Or.inr ⟨h1, h2.1, h2.2⟩⟩ h
      | some t => exact ⟨_, rfl, rfl⟩
    · rw [if_neg h2]
      exact ⟨_, rfl, rfl⟩

theorem marshal_ok (ins : Instruction) (bo : ByteOrder) (h : ins.OpCode ≠ InvalidOpCode) :
    ∃ bs n, Instruction.Marshal ins bo = .ok (bs, n) := by
  rw [Instruction.Marshal, if_neg h]
  by_cases hdw : OpCode.isDWordLoad ins.OpCode <;> simp [hdw]

theorem marshalGo_missing (offs : List (String × Nat)) (bo : ByteOrder) :
    ∀ (insns : List Instruction) (k i num : Nat) (hk : k < insns.length),
      pendingMissing offs (insns.get ⟨k, hk⟩) →
      (∀ j (hj : j < insns.length), j < k →
        ¬ pendingMissing offs (insns.get ⟨j, hj⟩) ∧
          (insns.get ⟨j, hj⟩).OpCode ≠ InvalidOpCode) →
      marshalGo offs bo insns i num =
        .error (.missingSymbol (i + k) (insns.get ⟨k, hk⟩).Reference) := by
  intro insns
  induction insns with
  | nil =>
    intro k i num hk
    simp at hk
  | cons ins rest ih =>
    intro k i num hk hpend hpre
    cases k with
    | zero =>
      simp only [List.get] at hpend ⊢
      obtain ⟨hl, hcase⟩ := hpend
      have hpat : marshalPatch offs i num ins = .error (.missingSymbol i ins.Reference) := by
        rw [marshalPatch]
        rcases hcase with h1 | ⟨hn1, h2, h3⟩
        · rw [if_pos h1, hl]
        · rw [if_neg hn1, if_pos ⟨h2, h3⟩, hl]
      simp only [marshalGo, hpat, Nat.add_zero, List.get]
    | succ q =>
      have h0 := hpre 0 (by simp) (Nat.succ_pos q)
      simp only [List.get] at h0
      obtain ⟨ins2, hp, hop⟩ := marshalPatch_not_missing offs i num ins h0.1
      obtain ⟨bs, n, hm⟩ := marshal_ok ins2 bo (by rw [hop]; exact h0.2)
      have hrec := ih q (i + 1) (num + n / InstructionSize)
        (by simpa using Nat.lt_of_succ_lt_succ hk)
        (by simpa [List.get] using hpend)
        (by
          intro j hj hjq
          have := hpre (j + 1) (by simpa using Nat.succ_lt_succ hj) (Nat.succ_lt_succ hjq)
          simpa [List.get] using this)
      have harith : i + 1 + q = i + (q + 1) := by omega
      rw [harith] at hrec
      simp only [marshalGo, hp, hm, hrec, List.get]

/-! Facts about the symbol tables. -/

theorem symsOf_nil : symsOf [] = [] := rfl

theorem symsOf_cons (ins : Instruction) (rest : List Instruction) :
    symsOf (ins :: rest) =
      if ins.Symbol = "" then symsOf rest else ins.Symbol :: symsOf rest := by
  simp only [symsOf, List.filterMap_cons]
  by_cases hs : ins.Symbol = "" <;> simp [hs]

theorem lookup_cons_isSome (x s : String) (v : Nat) (acc : List (String × Nat)) :
    (((s, v) :: acc).lookup x).isSome = (x == s || (acc.lookup x).isSome) := by
  rw [List.lookup]
  by_cases h : x == s
  · rw [h]; simp
  · simp only [Bool.not_eq_true] at h
    rw [h]; simp

theorem lookup_cons_eq (x s : String) (v : Nat) (acc : List (String × Nat)) :
    ((s, v) :: acc).lookup x = if x = s then some v else acc.lookup x := by
  rw [List.lookup]
  by_cases h : x = s
  · simp [h]
  · have hb : (x == s) = false := by simp [h]
    rw [hb]
    simp [h]

theorem symbolOffsetsGo_dup :
    ∀ (insns : List Instruction) (i : Nat) (acc : List (String × Nat)),
      (¬ (symsOf insns).Nodup ∨ ∃ x ∈ symsOf insns, (acc.lookup x).isSome) →
      ∃ x, symbolOffsetsGo insns i acc = .error (.duplicateSymbol x) := by
  intro insns
  induction insns with
  | nil =>
    intro i acc h
    rcases h with h | ⟨x, hx, _⟩
    · exact absurd List.nodup_nil h
    · simp [symsOf] at hx
  | cons ins rest ih =>
    intro i acc h
    rw [symsOf_cons] at h
    by_cases hsym : ins.Symbol = ""
    · rw [if_pos hsym] at h
      rw [symbolOffsetsGo, if_pos hsym]
      exact ih (i + 1) acc h
    · rw [if_neg hsym] at h
      rw [symbolOffsetsGo, if_neg hsym]
      by_cases hlk : (acc.lookup ins.Symbol).isSome
      · rw [if_pos hlk]
        exact ⟨_, rfl⟩
      · rw [if_neg hlk]
        apply ih
        rcases h with h | ⟨x, hx, hacc⟩
        · rw [List.nodup_cons] at h
          by_cases hmem : ins.Symbol ∈ symsOf rest
          · right
            exact ⟨ins.Symbol, hmem, by rw [lookup_cons_isSome]; simp⟩
          · left
            intro hnd
            exact h ⟨hmem, hnd⟩
        · rcases List.mem_cons.mp hx with heq | hmem
          · subst heq
            exact absurd hacc hlk
          · right
            exact ⟨x, hmem, by rw [lookup_cons_isSome, hacc]; simp⟩

theorem symbolOffsetsGo_nodup :
    ∀ (insns : List Instruction) (i : Nat) (acc : List (String × Nat)),
      (symsOf insns).Nodup →
      (∀ x ∈ symsOf insns, acc.lookup x = none) →
      ∃ m, symbolOffsetsGo insns i acc = .ok m ∧
        (∀ x v, acc.lookup x = some v → m.lookup x = some v) ∧
        (∀ k (hx : k < insns.length), (insns.get ⟨k, hx⟩).Symbol ≠ "" →
          m.lookup (insns.get ⟨k, hx⟩).Symbol = some (i + k)) := by
  intro insns
  induction insns with
  | nil =>
    intro i acc hnd hacc
    refine ⟨acc, rfl, fun x v h => h, ?_⟩
    intro k hx
    simp at hx
  | cons ins rest ih =>
    intro i acc hnd hacc
    rw [symsOf_cons] at hnd hacc
    by_cases hsym : ins.Symbol = ""
    · rw [if_pos hsym] at hnd hacc
      obtain ⟨m, hm, hpres, hidx⟩ := ih (i + 1) acc hnd hacc
      refine ⟨m, ?_, hpres, ?_⟩
      · rw [symbolOffsetsGo, if_pos hsym]
        exact hm
      · intro k hx hs
        cases k with
        | zero => simp only [List.get] at hs; exact absurd hsym hs
        | succ q =>
          have := hidx q (by simpa using Nat.lt_of_succ_lt_succ hx)
          simp only [List.get] at this ⊢
          rw [this (by simpa using hs)]
          congr 1
          omega
    · rw [if_neg hsym] at hnd hacc
      rw [List.nodup_cons] at hnd
      have hlk : (acc.lookup ins.Symbol).isSome = false := by
        rw [hacc ins.Symbol (List.mem_cons_self _ _)]
        rfl
      have hacc2 : ∀ x ∈ symsOf rest, (((ins.Symbol, i) :: acc).lookup x) = none := by
        intro x hx
        rw [lookup_cons_eq]
        have hne : x ≠ ins.Symbol := fun he => hnd.1 (he ▸ hx)
        rw [if_neg hne]
        exact hacc x (List.mem_cons_of_mem _ hx)
      obtain ⟨m, hm, hpres, hidx⟩ := ih (i + 1) ((ins.Symbol, i) :: acc) hnd.2 hacc2
      refine ⟨m, ?_, ?_, ?_⟩
      · rw [symbolOffsetsGo, if_neg hsym]
        rw [if_neg (by rw [hlk]; exact Bool.false_ne_true)]
        exact hm
      · intro x v hv
        apply hpres
        rw [lookup_cons_eq]
        have hne : x ≠ ins.Symbol := by
          intro he
          rw [he, hacc ins.Symbol (List.mem_cons_self _ _)] at hv
          cases hv
        rw [if_neg hne]
        exact hv
      · intro k hx hs
        cases k with
        | zero =>
          simp only [List.get] at hs ⊢
          have : ((ins.Symbol, i) :: acc).lookup ins.Symbol = some i := by
            rw [lookup_cons_eq, if_pos rfl]
          rw [hpres ins.Symbol i this]
          congr 1
        | succ q =>
          have := hidx q (by simpa using Nat.lt_of_succ_lt_succ hx)
          simp only [List.get] at this ⊢
          rw [this (by simpa using hs)]
          congr 1
          omega

theorem slotCount_nil : slotCount [] = 0 := rfl

theorem slotCount_cons (ins : Instruction) (l : List Instruction) :
    slotCount (ins :: l) = OpCode.marshalledInstructions ins.OpCode + slotCount l := by
  simp [slotCount]

theorem marshalledOffsetsGo_dup :
    ∀ (insns : List Instruction) (p : Nat) (acc : List (String × Nat)),
      (¬ (symsOf insns).Nodup ∨ ∃ x ∈ symsOf insns, (acc.lookup x).isSome) →
      ∃ x, marshalledOffsetsGo insns p acc = .error (.duplicateSymbol x) := by
  intro insns
  induction insns with
  | nil =>
    intro p acc h
    rcases h with h | ⟨x, hx, _⟩
    · exact absurd List.nodup_nil h
    · simp [symsOf] at hx
  | cons ins rest ih =>
    intro p acc h
    rw [symsOf_cons] at h
    by_cases hsym : ins.Symbol = ""
    · rw [if_pos hsym] at h
      simp only [marshalledOffsetsGo, if_pos hsym]
      exact ih _ acc h
    · rw [if_neg hsym] at h
      simp only [marshalledOffsetsGo, if_neg hsym]
      by_cases hlk : (acc.lookup ins.Symbol).isSome
      · rw [if_pos hlk]
        exact ⟨_, rfl⟩
      · rw [if_neg hlk]
        apply ih
        rcases h with h | ⟨x, hx, hacc⟩
        · rw [List.nodup_cons] at h
          by_cases hmem : ins.Symbol ∈ symsOf rest
          · right
            exact ⟨ins.Symbol, hmem, by rw [lookup_cons_isSome]; simp⟩
          · left
            intro hnd
            exact h ⟨hmem, hnd⟩
        · rcases List.mem_cons.mp hx with heq | hmem
          · subst heq
            exact absurd hacc hlk
          · right
            exact ⟨x, hmem, by rw [lookup_cons_isSome, hacc]; simp⟩

theorem marshalledOffsetsGo_nodup :
    ∀ (insns : List Instruction) (p : Nat) (acc : List (String × Nat)),
      (symsOf insns).Nodup →
      (∀ x ∈ symsOf insns, acc.lookup x = none) →
      ∃ m, marshalledOffsetsGo insns p acc = .ok m ∧
        (∀ x v, acc.lookup x = some v → m.lookup x = some v) ∧
        (∀ k (hx : k < insns.length), (insns.get ⟨k, hx⟩).Symbol ≠ "" →
          m.lookup (insns.get ⟨k, hx⟩).Symbol = some (p + slotCount (insns.take k))) := by
  intro insns
  induction insns with
  | nil =>
    intro p acc hnd hacc
    refine ⟨acc, rfl, fun x v h => h, ?_⟩
    intro k hx
    simp at hx
  | cons ins rest ih =>
    intro p acc hnd hacc
    rw [symsOf_cons] at hnd hacc
    by_cases hsym : ins.Symbol = ""
    · rw [if_pos hsym] at hnd hacc
      obtain ⟨m, hm, hpres, hidx⟩ :=
        ih (p + OpCode.marshalledInstructions ins.OpCode) acc hnd hacc
      refine ⟨m, ?_, hpres, ?_⟩
      · simp only [marshalledOffsetsGo, if_pos hsym]
        exact hm
      · intro k hx hs
        cases k with
        | zero => simp only [List.get] at hs; exact absurd hsym hs
        | succ q =>
          have := hidx q (by simpa using Nat.lt_of_succ_lt_succ hx)
          simp only [List.get] at this ⊢
          rw [this (by simpa using hs), List.take_succ_cons, slotCount_cons]
          congr 1
          omega
    · rw [if_neg hsym] at hnd hacc
      rw [List.nodup_cons] at hnd
      have hlk : (acc.lookup ins.Symbol).isSome = false := by
        rw [hacc ins.Symbol (List.mem_cons_self _ _)]
        rfl
      have hacc2 : ∀ x ∈ symsOf rest, (((ins.Symbol, p) :: acc).lookup x) = none := by
        intro x hx
        rw [lookup_cons_eq]
        have hne : x ≠ ins.Symbol := fun he => hnd.1 (he ▸ hx)
        rw [if_neg hne]
        exact hacc x (List.mem_cons_of_mem _ hx)
      obtain ⟨m, hm, hpres, hidx⟩ :=
        ih (p + OpCode.marshalledInstructions ins.OpCode) ((ins.Symbol, p) :: acc) hnd.2 hacc2
      refine ⟨m, ?_, ?_, ?_⟩
      · simp only [marshalledOffsetsGo, if_neg hsym]
        rw [if_neg (by rw [hlk]; exact Bool.false_ne_true)]
        exact hm
      · intro x v hv
        apply hpres
        rw [lookup_cons_eq]
        have hne : x ≠ ins.Symbol := by
          intro he
          rw [he, hacc ins.Symbol (List.mem_cons_self _ _)] at hv
          cases hv
        rw [if_neg hne]
        exact hv
      · intro k hx hs
        cases k with
        | zero =>
          simp only [List.get] at hs ⊢
          have : ((ins.Symbol, p) :: acc).lookup ins.Symbol = some p := by
            rw [lookup_cons_eq, if_pos rfl]
          rw [hpres ins.Symbol p this]
          congr 1
        | succ q =>
          have := hidx q (by simpa using Nat.lt_of_succ_lt_succ hx)
          simp only [List.get] at this ⊢
          rw [this (by simpa using hs), List.take_succ_cons, slotCount_cons]
          congr 1
          omega

/-! Claim theorems. -/

/-- Claim C1: for every instruction whose opcode is not the invalid
sentinel (with registers in their 4-bit range, the offset in int16 range,
the constant in int32 range unless the opcode takes the double-wide path,
and no symbolic annotations, which the wire format does not carry),
decoding the bytes produced by Marshal under the same byte order yields
the original instruction in all fields, with Unmarshal reporting the same
byte count Marshal reported (8 or 16); and the 64-bit constant
0x1_0000_0001 splits into low slot 1 and high slot 1. -/
theorem marshal_unmarshal_roundtrip :
    (∀ (bo : ByteOrder) (ins : Instruction),
      ins.OpCode ≠ InvalidOpCode → ins.OpCode < 256 →
      ins.Dst < 16 → ins.Src < 16 →
      -32768 ≤ ins.Offset → ins.Offset < 32768 →
      -9223372036854775808 ≤ ins.Constant → ins.Constant < 9223372036854775808 →
      (OpCode.isDWordLoad ins.OpCode = false →
        -2147483648 ≤ ins.Constant ∧ ins.Constant < 2147483648) →
      ins.Reference = "" → ins.Symbol = "" →
      ∃ bs n, Instruction.Marshal ins bo = .ok (bs, n) ∧
        Instruction.Unmarshal bs bo = .ok (ins, n) ∧ (n = 8 ∨ n = 16)) ∧
    Instruction.Marshal ⟨24, 0, 0, 0, 4294967297, "", ""⟩ .littleEndian =
      .ok ([24, 0, 0, 0, 1, 0, 0, 0, 0, 0, 0, 0, 1, 0, 0, 0], 16) := by
  constructor
  · intro bo ins hop hop8 hdst hsrc hofflo hoffhi hclo hchi hc32 href hsym
    obtain ⟨op, d, s, off, c, ref, sym⟩ := ins
    simp only at hop hop8 hdst hsrc hofflo hoffhi hclo hchi hc32 href hsym
    subst href hsym
    have hregmod : newBPFRegisters d s % 256 = newBPFRegisters d s :=
      Nat.mod_eq_of_lt (newBPFRegisters_lt d s)
    have hmod : op % 256 = op := Nat.mod_eq_of_lt hop8
    by_cases hdw : OpCode.isDWordLoad op
    case neg =>
      rw [Bool.not_eq_true] at hdw
      obtain ⟨h1, h2⟩ := hc32 hdw
      have hcons : int32 (uint32 c) = c := int32_uint32 c h1 h2
      refine ⟨writeSlot bo ⟨op, newBPFRegisters d s, off, int32 (uint32 c)⟩, 8, ?_, ?_,
        Or.inl rfl⟩
      · simp only [Instruction.Marshal, if_neg hop, hdw, Bool.not_false, if_true,
          InstructionSize]
      · have hr := readSlot_writeSlot bo
          ⟨op, newBPFRegisters d s, off, int32 (uint32 c)⟩ []
        rw [List.append_nil] at hr
        simp only [Instruction.Unmarshal, hr]
        simp only [hmod, hdw, Bool.not_false, if_true, InstructionSize,
          hregmod, Dst_newBPFRegisters d s hdst, Src_newBPFRegisters d s hsrc,
          int16_uint16 off hofflo hoffhi, hcons]
    case pos =>
      have hop24 : op = 24 := by
        simpa [OpCode.isDWordLoad, LoadImmOpDWord] using hdw
      subst hop24
      have hn : uint64 c / 4294967296 % 4294967296 = uint64 c / 4294967296 := by
        have := uint64_lt c; omega
      have hu1 : uint32 (int32 (uint32 c)) = uint32 c := by
        rw [uint32_int32]; have := uint32_lt c; omega
      have hu2 : uint32 (int32 (uint64 c / 4294967296)) = uint64 c / 4294967296 := by
        rw [uint32_int32]; exact hn
      have hcomb : int64 (uint64 c / 4294967296 * 4294967296 + uint32 c) = c :=
        int64_combine c hclo hchi
      refine ⟨writeSlot bo ⟨24, newBPFRegisters d s, off, int32 (uint32 c)⟩ ++
              writeSlot bo ⟨0, 0, 0, int32 (uint64 c / 4294967296)⟩, 16, ?_, ?_, Or.inr rfl⟩
      · simp only [Instruction.Marshal, if_neg hop, hdw, Bool.not_true, InstructionSize]
        simp
      · have hr1 := readSlot_writeSlot bo ⟨24, newBPFRegisters d s, off, int32 (uint32 c)⟩
          (writeSlot bo ⟨0, 0, 0, int32 (uint64 c / 4294967296)⟩)
        have hr2 := readSlot_writeSlot bo ⟨0, 0, 0, int32 (uint64 c / 4294967296)⟩ []
        rw [List.append_nil] at hr2
        simp only [Instruction.Unmarshal, hr1]
        simp only [hr2, hregmod, Dst_newBPFRegisters d s hdst, Src_newBPFRegisters d s hsrc,
          int16_uint16 off hofflo hoffhi, hu1, hu2, hcomb, InstructionSize]
        simp [OpCode.isDWordLoad, LoadImmOpDWord, int16, uint16]
  · rfl

theorem marshal_unmarshal_roundtrip_witness :
    ∃ bs n,
      Instruction.Marshal ⟨24, 3, 1, -2, 4294967297, "", ""⟩ .littleEndian = .ok (bs, n) ∧
      Instruction.Unmarshal bs .littleEndian =
        .ok (⟨24, 3, 1, -2, 4294967297, "", ""⟩, n) ∧ (n = 8 ∨ n = 16) :=
  marshal_unmarshal_roundtrip.1 .littleEndian ⟨24, 3, 1, -2, 4294967297, "", ""⟩
    (by decide) (by decide) (by decide) (by decide) (by decide) (by decide)
    (by decide) (by decide) (by decide) rfl rfl

/-- Claim C2: during Instructions.Marshal, a pending call instruction has
its constant set to the referenced slot offset minus num minus 1, and a
pending jump-class instruction (not matching the call case) has its offset
set to the same quantity narrowed to 16 bits, where num is the running
slot counter before the current instruction; on the concrete sequence
jump(offset = -1, ref L), nop, nop tagged L, the jump encodes offset
2 - 0 - 1 = 1. -/
theorem marshal_relative_addressing :
    (∀ (offs : List (String × Nat)) (i num : Nat) (ins : Instruction) (t : Nat),
      OpCode.JumpOp ins.OpCode = Call → ins.Constant = -1 →
      offs.lookup ins.Reference = some t →
      marshalPatch offs i num ins = .ok { ins with Constant := (t : Int) - num - 1 }) ∧
    (∀ (offs : List (String × Nat)) (i num : Nat) (ins : Instruction) (t : Nat),
      ¬(OpCode.JumpOp ins.OpCode = Call ∧ ins.Constant = -1) →
      OpCode.Class ins.OpCode = JumpClass → ins.Offset = -1 →
      offs.lookup ins.Reference = some t →
      marshalPatch offs i num ins =
        .ok { ins with Offset := int16 (uint16 ((t : Int) - num - 1)) }) ∧
    Instructions.Marshal [⟨5, 0, 0, -1, 0, "L", ""⟩, ⟨0, 0, 0, 0, 0, "", ""⟩,
        ⟨0, 0, 0, 0, 0, "", "L"⟩] .littleEndian =
      .ok [5, 0, 1, 0, 0, 0, 0, 0, 0, 0, 0, 0, 0, 0, 0, 0, 0, 0, 0, 0, 0, 0, 0, 0] := by
  refine ⟨?_, ?_, rfl⟩
  · intro offs i num ins t h1 h2 hl
    rw [marshalPatch, if_pos ⟨h1, h2⟩, hl]
  · intro offs i num ins t hn h2 h3 hl
    rw [marshalPatch, if_neg hn, if_pos ⟨h2, h3⟩, hl]

theorem marshal_relative_addressing_witness :
    marshalPatch [("F", 5)] 0 2 ⟨133, 0, 1, 0, -1, "F", ""⟩ =
      .ok { (⟨133, 0, 1, 0, -1, "F", ""⟩ : Instruction) with Constant := (5 : Int) - 2 - 1 } ∧
    marshalPatch [("L", 9)] 1 3 ⟨5, 0, 0, -1, 0, "L", ""⟩ =
      .ok { (⟨5, 0, 0, -1, 0, "L", ""⟩ : Instruction) with
            Offset := int16 (uint16 ((9 : Int) - 3 - 1)) } :=
  ⟨marshal_relative_addressing.1 [("F", 5)] 0 2 ⟨133, 0, 1, 0, -1, "F", ""⟩ 5 rfl rfl rfl,
   marshal_relative_addressing.2.1 [("L", 9)] 1 3 ⟨5, 0, 0, -1, 0, "L", ""⟩ 9
     (by decide) rfl rfl rfl⟩

/-- Claim C3 counterexample: the claim requires the call rewrite to happen
only when the operand source is the call pseudo-register, but the code
patches a call-class instruction with constant -1 whose Src is 0 (not
PseudoCall): the sequence encodes with the call constant patched to 0
rather than the unpatched -1 encoding. -/
theorem call_rewrite_src_not_checked_cex :
    (⟨133, 0, 0, 0, -1, "L", ""⟩ : Instruction).Src ≠ PseudoCall ∧
    Instructions.Marshal [⟨133, 0, 0, 0, -1, "L", ""⟩, ⟨0, 0, 0, 0, 0, "", "L"⟩]
        .littleEndian =
      .ok [133, 0, 0, 0, 0, 0, 0, 0, 0, 0, 0, 0, 0, 0, 0, 0] ∧
    Instruction.Marshal ⟨133, 0, 0, 0, -1, "L", ""⟩ .littleEndian =
      .ok ([133, 0, 0, 0, 255, 255, 255, 255], 8) := ⟨by decide, rfl, rfl⟩

/-- Claim C3 as amended: Instructions.Marshal performs the call-constant
rewrite exactly for instructions that are call-class with constant equal
to -1, regardless of the source register; instructions not meeting these
conditions have their constant left unpatched. -/
theorem call_rewrite_exact_condition (offs : List (String × Nat)) (i num : Nat)
    (ins : Instruction) :
    (OpCode.JumpOp ins.OpCode = Call → ins.Constant = -1 →
      (∀ t, offs.lookup ins.Reference = some t →
        marshalPatch offs i num ins = .ok { ins with Constant := (t : Int) - num - 1 }) ∧
      (offs.lookup ins.Reference = none →
        marshalPatch offs i num ins = .error (.missingSymbol i ins.Reference))) ∧
    (¬(OpCode.JumpOp ins.OpCode = Call ∧ ins.Constant = -1) →
      ∀ ins2, marshalPatch offs i num ins = .ok ins2 → ins2.Constant = ins.Constant) := by
  constructor
  · intro h1 h2
    constructor
    · intro t hl
      rw [marshalPatch, if_pos ⟨h1, h2⟩, hl]
    · intro hl
      rw [marshalPatch, if_pos ⟨h1, h2⟩, hl]
  · intro hn ins2
    rw [marshalPatch, if_neg hn]
    by_cases hb : OpCode.Class ins.OpCode = JumpClass ∧ ins.Offset = -1
    · rw [if_pos hb]
      cases hl : offs.lookup ins.Reference with
      | none => intro h; cases h
      | some t =>
        intro h
        cases h
        rfl
    · rw [if_neg hb]
      intro h
      cases h
      rfl

theorem call_rewrite_exact_condition_witness :
    marshalPatch [("L", 1)] 0 0 ⟨133, 0, 0, 0, -1, "L", ""⟩ =
      .ok { (⟨133, 0, 0, 0, -1, "L", ""⟩ : Instruction) with
            Constant := (1 : Int) - 0 - 1 } ∧
    (⟨0, 0, 0, 0, 7, "", ""⟩ : Instruction).Constant =
      (⟨0, 0, 0, 0, 7, "", ""⟩ : Instruction).Constant :=
  ⟨((call_rewrite_exact_condition [("L", 1)] 0 0 ⟨133, 0, 0, 0, -1, "L", ""⟩).1
      (by decide) rfl).1 1 (by decide),
   (call_rewrite_exact_condition [] 0 0 ⟨0, 0, 0, 0, 7, "", ""⟩).2 (by decide)
     ⟨0, 0, 0, 0, 7, "", ""⟩ rfl⟩

/-- Claim C4: a sequence containing two instructions tagged with the same
non-empty symbol makes both SymbolOffsets and marshalledOffsets fail with
a duplicate-symbol error; conversely, without duplicates both succeed,
SymbolOffsets mapping each symbol to the logical index of its defining
instruction and marshalledOffsets mapping it to the cumulative slot count
(1 per single-slot, 2 per double-wide instruction) before it. -/
theorem duplicate_symbol_detection :
    (∀ insns : List Instruction, ¬ (symsOf insns).Nodup →
      (∃ x, Instructions.SymbolOffsets insns = .error (.duplicateSymbol x)) ∧
      (∃ x, Instructions.marshalledOffsets insns = .error (.duplicateSymbol x))) ∧
    (∀ insns : List Instruction, (symsOf insns).Nodup →
      ∃ m m2, Instructions.SymbolOffsets insns = .ok m ∧
        Instructions.marshalledOffsets insns = .ok m2 ∧
        ∀ k (hx : k < insns.length), (insns.get ⟨k, hx⟩).Symbol ≠ "" →
          m.lookup (insns.get ⟨k, hx⟩).Symbol = some k ∧
          m2.lookup (insns.get ⟨k, hx⟩).Symbol = some (slotCount (insns.take k))) := by
  constructor
  · intro insns hnd
    exact ⟨symbolOffsetsGo_dup insns 0 [] (Or.inl hnd),
           marshalledOffsetsGo_dup insns 0 [] (Or.inl hnd)⟩
  · intro insns hnd
    obtain ⟨m, hm, hp1, hidx⟩ := symbolOffsetsGo_nodup insns 0 [] hnd (fun x _ => rfl)
    obtain ⟨m2, hm2, hp2, hidx2⟩ := marshalledOffsetsGo_nodup insns 0 [] hnd (fun x _ => rfl)
    refine ⟨m, m2, hm, hm2, ?_⟩
    intro k hx hs
    constructor
    · simpa using hidx k hx hs
    · simpa using hidx2 k hx hs

theorem duplicate_symbol_detection_witness :
    ((∃ x, Instructions.SymbolOffsets
        [⟨0, 0, 0, 0, 0, "", "X"⟩, ⟨0, 0, 0, 0, 0, "", "X"⟩] =
          .error (.duplicateSymbol x)) ∧
     (∃ x, Instructions.marshalledOffsets
        [⟨0, 0, 0, 0, 0, "", "X"⟩, ⟨0, 0, 0, 0, 0, "", "X"⟩] =
          .error (.duplicateSymbol x))) ∧
    (∃ m m2, Instructions.SymbolOffsets
        [⟨0, 0, 0, 0, 0, "", "X"⟩, ⟨24, 0, 0, 0, 0, "", ""⟩, ⟨0, 0, 0, 0, 0, "", "Y"⟩] =
          .ok m ∧
      Instructions.marshalledOffsets
        [⟨0, 0, 0, 0, 0, "", "X"⟩, ⟨24, 0, 0, 0, 0, "", ""⟩, ⟨0, 0, 0, 0, 0, "", "Y"⟩] =
          .ok m2 ∧
      ∀ k (hx : k < ([⟨0, 0, 0, 0, 0, "", "X"⟩, ⟨24, 0, 0, 0, 0, "", ""⟩,
          ⟨0, 0, 0, 0, 0, "", "Y"⟩] : List Instruction).length),
        (([⟨0, 0, 0, 0, 0, "", "X"⟩, ⟨24, 0, 0, 0, 0, "", ""⟩,
          ⟨0, 0, 0, 0, 0, "", "Y"⟩] : List Instruction).get ⟨k, hx⟩).Symbol ≠ "" →
        m.lookup (([⟨0, 0, 0, 0, 0, "", "X"⟩, ⟨24, 0, 0, 0, 0, "", ""⟩,
          ⟨0, 0, 0, 0, 0, "", "Y"⟩] : List Instruction).get ⟨k, hx⟩).Symbol = some k ∧
        m2.lookup (([⟨0, 0, 0, 0, 0, "", "X"⟩, ⟨24, 0, 0, 0, 0, "", ""⟩,
          ⟨0, 0, 0, 0, 0, "", "Y"⟩] : List Instruction).get ⟨k, hx⟩).Symbol =
            some (slotCount (([⟨0, 0, 0, 0, 0, "", "X"⟩, ⟨24, 0, 0, 0, 0, "", ""⟩,
              ⟨0, 0, 0, 0, 0, "", "Y"⟩] : List Instruction).take k))) :=
  ⟨duplicate_symbol_detection.1
     [⟨0, 0, 0, 0, 0, "", "X"⟩, ⟨0, 0, 0, 0, 0, "", "X"⟩] (by decide),
   duplicate_symbol_detection.2
     [⟨0, 0, 0, 0, 0, "", "X"⟩, ⟨24, 0, 0, 0, 0, "", ""⟩, ⟨0, 0, 0, 0, 0, "", "Y"⟩]
     (by decide)⟩

/-- Claim C5: on a double-wide load from the map-value pseudo-register,
binding a handle and rebinding an offset succeed in either order and
commute, the packed constant then reads back the handle (truncated to 32
bits) through mapPtr and the offset through mapOffset, and each operation
preserves the half owned by the other. -/
theorem bind_rebind_packing_roundtrip (ins : Instruction) (fd : Int) (o : Nat)
    (hdw : OpCode.isDWordLoad ins.OpCode = true) (hsrc : ins.Src = PseudoMapValue)
    (ho : o < 4294967296) :
    ∃ ins1 ins12 ins2 ins21,
      Instruction.RewriteMapPtr ins fd = .ok ins1 ∧
      Instruction.RewriteMapOffset ins1 o = .ok ins12 ∧
      Instruction.RewriteMapOffset ins o = .ok ins2 ∧
      Instruction.RewriteMapPtr ins2 fd = .ok ins21 ∧
      ins12 = ins21 ∧
      Instruction.mapPtr ins12 = uint32 fd ∧
      Instruction.mapOffset ins12 = o ∧
      Instruction.mapOffset ins1 = Instruction.mapOffset ins ∧
      Instruction.mapPtr ins2 = Instruction.mapPtr ins := by
  have hu := uint64_lt ins.Constant
  have hfd := uint32_lt fd
  refine ⟨{ ins with
      Constant := int64 (uint64 ins.Constant / 4294967296 * 4294967296 + uint32 fd) },
    { ins with Constant := int64 (o % 4294967296 * 4294967296 +
        uint64 (int64 (uint64 ins.Constant / 4294967296 * 4294967296 + uint32 fd)) %
          4294967296) },
    { ins with Constant := int64 (o % 4294967296 * 4294967296 +
        uint64 ins.Constant % 4294967296) },
    { ins with Constant := int64 (uint64 (int64 (o % 4294967296 * 4294967296 +
        uint64 ins.Constant % 4294967296)) / 4294967296 * 4294967296 + uint32 fd) },
    ?_, ?_, ?_, ?_, ?_, ?_, ?_, ?_, ?_⟩
  · simp [Instruction.RewriteMapPtr, hdw, hsrc, PseudoMapValue, PseudoMapFD]
  · simp [Instruction.RewriteMapOffset, hdw, hsrc]
  · simp [Instruction.RewriteMapOffset, hdw, hsrc]
  · simp [Instruction.RewriteMapPtr, hdw, hsrc, PseudoMapValue, PseudoMapFD]
  · have heq : ∀ a b : Int, a = b →
        ({ ins with Constant := a } : Instruction) = { ins with Constant := b } := by
      intro a b h; rw [h]
    apply heq
    rw [uint64_int64, uint64_int64]
    exact congrArg int64 (by omega)
  · simp only [Instruction.mapPtr]
    rw [uint64_int64, uint64_int64]
    omega
  · simp only [Instruction.mapOffset]
    rw [uint64_int64, uint64_int64]
    omega
  · simp only [Instruction.mapOffset]
    rw [uint64_int64]
    omega
  · simp only [Instruction.mapPtr]
    rw [uint64_int64]
    omega

theorem bind_rebind_packing_roundtrip_witness :
    ∃ ins1 ins12 ins2 ins21,
      Instruction.RewriteMapPtr ⟨24, 0, 2, 0, 0, "", ""⟩ (-1) = .ok ins1 ∧
      Instruction.RewriteMapOffset ins1 7 = .ok ins12 ∧
      Instruction.RewriteMapOffset ⟨24, 0, 2, 0, 0, "", ""⟩ 7 = .ok ins2 ∧
      Instruction.RewriteMapPtr ins2 (-1) = .ok ins21 ∧
      ins12 = ins21 ∧
      Instruction.mapPtr ins12 = uint32 (-1) ∧
      Instruction.mapOffset ins12 = 7 ∧
      Instruction.mapOffset ins1 = Instruction.mapOffset ⟨24, 0, 2, 0, 0, "", ""⟩ ∧
      Instruction.mapPtr ins2 = Instruction.mapPtr ⟨24, 0, 2, 0, 0, "", ""⟩ :=
  bind_rebind_packing_roundtrip ⟨24, 0, 2, 0, 0, "", ""⟩ (-1) 7 rfl rfl (by decide)

/-- Claim C6: the sequence-level RewriteMapPtr with a non-empty symbol
referenced by zero instructions fails with an error satisfying
IsUnreferencedSymbol, while Instructions.Marshal on a sequence whose first
problematic instruction is a pending call or jump referring to a symbol
absent from the slot-offset table fails with a missing-symbol error naming
that instruction's logical index and symbol, which does not satisfy the
predicate. -/
theorem unreferenced_vs_missing_symbol :
    (∀ (insns : List Instruction) (symbol : String) (fd : Int),
      symbol ≠ "" → (∀ ins ∈ insns, ins.Reference ≠ symbol) →
      Instructions.RewriteMapPtr insns symbol fd = .error (.unreferencedSymbol symbol) ∧
      IsUnreferencedSymbol (.unreferencedSymbol symbol) = true) ∧
    (∀ (insns : List Instruction) (bo : ByteOrder) (offs : List (String × Nat))
        (k : Nat) (hk : k < insns.length),
      Instructions.marshalledOffsets insns = .ok offs →
      pendingMissing offs (insns.get ⟨k, hk⟩) →
      (∀ j (hj : j < insns.length), j < k →
        ¬ pendingMissing offs (insns.get ⟨j, hj⟩) ∧
          (insns.get ⟨j, hj⟩).OpCode ≠ InvalidOpCode) →
      Instructions.Marshal insns bo =
        .error (.missingSymbol k (insns.get ⟨k, hk⟩).Reference) ∧
      IsUnreferencedSymbol (.missingSymbol k (insns.get ⟨k, hk⟩).Reference) = false) := by
  constructor
  · intro insns symbol fd hs hnone
    refine ⟨?_, rfl⟩
    simp only [Instructions.RewriteMapPtr, if_neg hs,
      rewriteMapPtrGo_no_match symbol fd insns hnone]
    simp
  · intro insns bo offs k hk hoffs hpend hpre
    refine ⟨?_, rfl⟩
    have hgo := marshalGo_missing offs bo insns k 0 0 hk hpend hpre
    simp only [Nat.zero_add] at hgo
    simp only [Instructions.Marshal, hoffs, hgo]

theorem unreferenced_vs_missing_symbol_witness :
    (Instructions.RewriteMapPtr [⟨24, 0, 1, 0, 0, "", ""⟩] "M" 3 =
        .error (.unreferencedSymbol "M") ∧
      IsUnreferencedSymbol (.unreferencedSymbol "M") = true) ∧
    (Instructions.Marshal [⟨133, 0, 1, 0, -1, "missing", ""⟩] .littleEndian =
        .error (.missingSymbol 0 "missing") ∧
      IsUnreferencedSymbol (.missingSymbol 0 "missing") = false) :=
  ⟨unreferenced_vs_missing_symbol.1 [⟨24, 0, 1, 0, 0, "", ""⟩] "M" 3
     (by decide) (by decide),
   unreferenced_vs_missing_symbol.2 [⟨133, 0, 1, 0, -1, "missing", ""⟩] .littleEndian
     [] 0 (by decide) rfl (by decide)
     (fun j hj hlt => absurd hlt (Nat.not_lt_zero j))⟩

/-- Claim C7: when the first slot of a stream decodes to the double-wide
load opcode and a second slot is available, Unmarshal fails with the
non-zero-padding-fields error if the second slot's opcode, offset, or
register byte is non-zero, and otherwise returns the constant combined as
second slot's unsigned 32 bits shifted left 32, or-ed with the first
slot's unsigned 32 bits, reporting 16 consumed bytes. -/
theorem unmarshal_padding_check (bo : ByteOrder) (s : List Nat)
    (bi bi2 : bpfInstruction) (r1 r2 : List Nat)
    (h1 : readSlot bo s = .ok (bi, r1)) (hdw : OpCode.isDWordLoad bi.OpCode = true)
    (h2 : readSlot bo r1 = .ok (bi2, r2)) :
    ((bi2.OpCode ≠ 0 ∨ bi2.Offset ≠ 0 ∨ bi2.Registers ≠ 0) →
      Instruction.Unmarshal s bo = .error .nonZeroFields) ∧
    (bi2.OpCode = 0 → bi2.Offset = 0 → bi2.Registers = 0 →
      Instruction.Unmarshal s bo =
        .ok ({ OpCode := bi.OpCode, Dst := bpfRegisters.Dst bi.Registers,
               Src := bpfRegisters.Src bi.Registers, Offset := bi.Offset,
               Constant := int64 (uint32 bi2.Constant * 4294967296 + uint32 bi.Constant),
               Reference := "", Symbol := "" }, 16)) := by
  constructor
  · intro hne
    have hb : (bi2.OpCode != 0 || bi2.Offset != 0 || bi2.Registers != 0) = true := by
      rcases hne with h | h | h <;> simp [h]
    simp only [Instruction.Unmarshal, h1, hdw, Bool.not_true, h2, hb]
    simp
  · intro hz1 hz2 hz3
    have hb : (bi2.OpCode != 0 || bi2.Offset != 0 || bi2.Registers != 0) = false := by
      simp [hz1, hz2, hz3]
    simp only [Instruction.Unmarshal, h1, hdw, Bool.not_true, h2, hb]
    simp [InstructionSize]

theorem unmarshal_padding_check_witness :
    Instruction.Unmarshal [24, 0, 0, 0, 5, 0, 0, 0, 0, 1, 0, 0, 7, 0, 0, 0] .littleEndian =
      .error .nonZeroFields ∧
    Instruction.Unmarshal [24, 0, 0, 0, 1, 0, 0, 0, 0, 0, 0, 0, 1, 0, 0, 0] .littleEndian =
      .ok (⟨24, 0, 0, 0, 4294967297, "", ""⟩, 16) :=
  ⟨(unmarshal_padding_check .littleEndian
      [24, 0, 0, 0, 5, 0, 0, 0, 0, 1, 0, 0, 7, 0, 0, 0]
      ⟨24, 0, 0, 5⟩ ⟨0, 1, 0, 7⟩ [0, 1, 0, 0, 7, 0, 0, 0] [] rfl rfl rfl).1
      (Or.inr (Or.inr (by decide))),
   (unmarshal_padding_check .littleEndian
      [24, 0, 0, 0, 1, 0, 0, 0, 0, 0, 0, 0, 1, 0, 0, 0]
      ⟨24, 0, 0, 1⟩ ⟨0, 0, 0, 1⟩ [0, 0, 0, 0, 1, 0, 0, 0] [] rfl rfl rfl).2
      rfl rfl rfl⟩

/-- Claim C8: when the first slot decodes to the double-wide load opcode
but the stream ends before a full second slot, Unmarshal fails with the
distinct missing-second-half error, which is not the generic end-of-stream
error; a stream that ends cleanly before the first slot surfaces the
generic end-of-stream error. -/
theorem unmarshal_truncated_second_slot (bo : ByteOrder) (s : List Nat)
    (bi : bpfInstruction) (r1 : List Nat) :
    (readSlot bo s = .ok (bi, r1) → OpCode.isDWordLoad bi.OpCode = true →
      r1.length < 8 →
      Instruction.Unmarshal s bo = .error .missingSecondHalf ∧
      Err.missingSecondHalf ≠ Err.eof) ∧
    Instruction.Unmarshal [] bo = .error .eof := by
  constructor
  · intro h1 hdw hlen
    obtain ⟨e, he⟩ := readSlot_short bo r1 hlen
    refine ⟨?_, by decide⟩
    simp only [Instruction.Unmarshal, h1, hdw, Bool.not_true, he]
    simp
  · rfl

theorem unmarshal_truncated_second_slot_witness :
    (Instruction.Unmarshal [24, 0, 0, 0, 1, 0, 0, 0, 9, 9] .littleEndian =
        .error .missingSecondHalf ∧
      Err.missingSecondHalf ≠ Err.eof) ∧
    Instruction.Unmarshal [] .littleEndian = .error .eof :=
  ⟨(unmarshal_truncated_second_slot .littleEndian [24, 0, 0, 0, 1, 0, 0, 0, 9, 9]
      ⟨24, 0, 0, 1⟩ [9, 9]).1 rfl rfl (by decide),
   (unmarshal_truncated_second_slot .littleEndian [] ⟨0, 0, 0, 0⟩ []).2⟩

/-- Claim C9 counterexample: the claim says RewriteMapOffset fails exactly
when src is not the map-value pseudo-register and succeeds whenever src is
that register, but on an instruction with src = PseudoMapValue whose
opcode is not a double-wide load the code fails with the
not-a-64-bit-load error. -/
theorem rewrite_map_offset_nondword_cex :
    (⟨0, 0, 2, 0, 0, "", ""⟩ : Instruction).Src = PseudoMapValue ∧
    Instruction.RewriteMapOffset ⟨0, 0, 2, 0, 0, "", ""⟩ 7 = .error .notDWordLoad :=
  ⟨rfl, rfl⟩

/-- Claim C9 as amended: RewriteMapOffset fails exactly when the opcode is
not a double-wide load (not-a-64-bit-load error) or the src register is
not the map-value pseudo-register (not-a-direct-load error); when the
opcode is a double-wide load and src is that pseudo-register it succeeds,
preserving the low 32 bits of the constant and replacing the high 32 bits
with the given offset. -/
theorem rewrite_map_offset_exact_condition (ins : Instruction) (o : Nat) :
    (OpCode.isDWordLoad ins.OpCode = false →
      Instruction.RewriteMapOffset ins o = .error .notDWordLoad) ∧
    (OpCode.isDWordLoad ins.OpCode = true → ins.Src ≠ PseudoMapValue →
      Instruction.RewriteMapOffset ins o = .error .notDirectMapLoad) ∧
    (OpCode.isDWordLoad ins.OpCode = true → ins.Src = PseudoMapValue → o < 4294967296 →
      ∃ ins2, Instruction.RewriteMapOffset ins o = .ok ins2 ∧
        uint64 ins2.Constant % 4294967296 = uint64 ins.Constant % 4294967296 ∧
        uint64 ins2.Constant / 4294967296 = o) := by
  refine ⟨?_, ?_, ?_⟩
  · intro hdw
    simp [Instruction.RewriteMapOffset, hdw]
  · intro hdw hsrc
    simp [Instruction.RewriteMapOffset, hdw, hsrc]
  · intro hdw hsrc ho
    have hu := uint64_lt ins.Constant
    refine ⟨{ ins with
        Constant := int64 (o % 4294967296 * 4294967296 + uint64 ins.Constant % 4294967296) },
      ?_, ?_, ?_⟩
    · simp [Instruction.RewriteMapOffset, hdw, hsrc]
    · simp only
      rw [uint64_int64]
      omega
    · simp only
      rw [uint64_int64]
      omega

theorem rewrite_map_offset_exact_condition_witness :
    (Instruction.RewriteMapOffset ⟨5, 0, 2, 0, 0, "", ""⟩ 3 = .error .notDWordLoad) ∧
    (Instruction.RewriteMapOffset ⟨24, 0, 1, 0, 0, "", ""⟩ 3 = .error .notDirectMapLoad) ∧
    (∃ ins2, Instruction.RewriteMapOffset ⟨24, 0, 2, 0, 6, "", ""⟩ 3 = .ok ins2 ∧
      uint64 ins2.Constant % 4294967296 =
        uint64 (⟨24, 0, 2, 0, 6, "", ""⟩ : Instruction).Constant % 4294967296 ∧
      uint64 ins2.Constant / 4294967296 = 3) :=
  ⟨(rewrite_map_offset_exact_condition ⟨5, 0, 2, 0, 0, "", ""⟩ 3).1 rfl,
   (rewrite_map_offset_exact_condition ⟨24, 0, 1, 0, 0, "", ""⟩ 3).2.1 rfl (by decide),
   (rewrite_map_offset_exact_condition ⟨24, 0, 2, 0, 6, "", ""⟩ 3).2.2 rfl rfl (by decide)⟩

/-- Claim C10: the sequence-level RewriteMapPtr called with the empty
string fails with the empty-symbol error on every sequence, before
examining any instruction, and that error does not satisfy the
IsUnreferencedSymbol predicate. -/
theorem rewrite_map_ptr_empty_symbol (insns : List Instruction) (fd : Int) :
    Instructions.RewriteMapPtr insns "" fd = .error .emptySymbol ∧
    IsUnreferencedSymbol .emptySymbol = false :=
  ⟨by simp [Instructions.RewriteMapPtr], rfl⟩

end asm
